import Mathlib

/-!
Verification of `src/backend/scripts/createRealFSA.py`: a synthetic
capillary-electrophoresis trace generator (signal synthesizer) together with
an ABIF tagged-container encoder (`ABIFWriter.create_fsa_file`).

Files are modelled as lists of natural-number bytes.  The numpy random draws
(`np.random.normal`, `np.random.randint`) are modelled as explicit integer
environments, and the floating-point Gaussian bump
`peak * np.exp(-0.5 * ((x - pos) / width) ** 2)` truncated by
`.astype(np.int16)` is modelled as an explicit function parameter `g`
constrained, where a theorem needs it, by the exact facts of that
computation: its value is between `0` and `peak` for a nonnegative `peak`,
and at the centre `x = pos` it equals `peak` exactly (since `exp(0) = 1.0`
and the truncation of the integral float `peak * 1.0` is exact).
-/

namespace FSA

/-- Big-endian 16-bit encoding of a natural number (struct.pack format H). -/
def be16 (v : ℕ) : List ℕ := [v / 256 % 256, v % 256]

/-- Big-endian 32-bit encoding of a natural number (struct.pack format I). -/
def be32 (v : ℕ) : List ℕ :=
  [v / 16777216 % 256, v / 65536 % 256, v / 256 % 256, v % 256]

/-- ASCII encoding of a string, as in Python `s.encode('ascii')`. -/
def asciiBytes (s : String) : List ℕ := s.toList.map Char.toNat

/-- Bytes of one int16 sample as produced by numpy `tobytes()` (two's
complement, machine byte order: little-endian low byte first). -/
def i16Bytes (v : ℤ) : List ℕ :=
  [(v % 65536).toNat % 256, (v % 65536).toNat / 256]

/-- Bytes of a whole int16 trace array, `channel_data[ch].tobytes()`. -/
def i16ArrayBytes (data : List ℤ) : List ℕ := (data.map i16Bytes).flatten

/-- Clamping of one sample, `np.clip(data, 0, 32767)`. -/
def clip16 (x : ℤ) : ℤ := max 0 (min x 32767)

/-- The element-wise maximum overlay
`data[lo:hi] = np.maximum(data[lo:hi], gaussian)`, carrying the absolute
index of the head of the remaining list; `f i` is the (truncated) Gaussian
value at absolute index `i`. -/
def overlayFrom (f : ℤ → ℤ) (lo hi : ℤ) : ℕ → List ℤ → List ℤ
  | _, [] => []
  | i, v :: vs =>
      (if lo ≤ (i : ℤ) ∧ (i : ℤ) < hi then max v (f i) else v)
        :: overlayFrom f lo hi (i + 1) vs

/-- Overlay on a whole trace starting at absolute index 0. -/
def overlayMax (d : List ℤ) (lo hi : ℤ) (f : ℤ → ℤ) : List ℤ :=
  overlayFrom f lo hi 0 d

/-- Fold a per-peak step over a list of peak positions, numbering the peaks
in order so that each one receives its own random height draw. -/
def applyPeaks (step : ℕ → ℤ → List ℤ → List ℤ) : ℕ → List ℤ → List ℤ → List ℤ
  | _, [], d => d
  | k, p :: ps, d => applyPeaks step (k + 1) ps (step k p d)

/-- STR-channel demonstration peak positions (line 45 of the source). -/
def strPositions : List ℤ := [1000, 2000, 3000, 4000, 5000, 6000]

/-- GeneScan LIZ 500 ladder peak positions (line 56 of the source). -/
def ladderPositions : List ℤ :=
  [350, 500, 750, 1000, 1390, 1500, 1600, 2000, 2500, 3000, 3400, 3500,
   4000, 4500, 4900, 5000]

/-- One STR-channel peak (lines 45-53): the window `[pos-20, pos+20)` is
applied only when `peak_start >= 0 and peak_end < data_points`; `g` is the
truncated Gaussian of height `200 + extra` and width 5. -/
def applyStrPeak (g : ℤ → ℤ → ℤ → ℤ → ℤ) (n : ℕ) (extra pos : ℤ)
    (d : List ℤ) : List ℤ :=
  if 0 ≤ pos - 20 ∧ pos + 20 < (n : ℤ) then
    overlayMax d (pos - 20) (pos + 20) (g (200 + extra) pos 5)
  else d

/-- One ladder-channel peak (lines 57-64): applied whenever `pos < n`, with
the window `[pos-15, pos+15)` clamped to `[0, n)`; height `300 + extra`,
width 4. -/
def applyLadderPeak (g : ℤ → ℤ → ℤ → ℤ → ℤ) (n : ℕ) (extra pos : ℤ)
    (d : List ℤ) : List ℤ :=
  if pos < (n : ℤ) then
    overlayMax d (max 0 (pos - 15)) (min (n : ℤ) (pos + 15))
      (g (300 + extra) pos 4)
  else d

/-- Random draw environment of one build: `baseline ch i` is the int16 value
of `np.random.normal(50, 10, data_points).astype(np.int16)` at index `i` of
channel `ch`; `strExtra ch k` is the `np.random.randint(0, 300)` draw of the
`k`-th STR peak of channel `ch`; `ladExtra k` is the
`np.random.randint(0, 200)` draw of the `k`-th ladder peak. -/
structure RandEnv where
  baseline : ℕ → ℕ → ℤ
  strExtra : ℕ → ℕ → ℤ
  ladExtra : ℕ → ℤ

/-- Baseline of one channel: clamped normal draws (lines 40-41). -/
def baseTrace (n : ℕ) (b : ℕ → ℤ) : List ℤ :=
  (List.range n).map fun i => clip16 (b i)

/-- Synthesized trace of an STR channel (`ch < 4`, lines 44-53). -/
def strChannel (g : ℤ → ℤ → ℤ → ℤ → ℤ) (n : ℕ) (b : ℕ → ℤ)
    (extra : ℕ → ℤ) : List ℤ :=
  applyPeaks (fun k pos d => applyStrPeak g n (extra k) pos d) 0
    strPositions (baseTrace n b)

/-- Synthesized trace of the LIZ ladder channel (`ch = 4`, lines 54-64). -/
def ladderChannel (g : ℤ → ℤ → ℤ → ℤ → ℤ) (n : ℕ) (b : ℕ → ℤ)
    (extra : ℕ → ℤ) : List ℤ :=
  applyPeaks (fun k pos d => applyLadderPeak g n (extra k) pos d) 0
    ladderPositions (baseTrace n b)

/-- One channel of the synthesizer: channels 0-3 are STR channels, channel 4
is the ladder channel (lines 39-66). -/
def synthChannel (g : ℤ → ℤ → ℤ → ℤ → ℤ) (n : ℕ) (env : RandEnv)
    (ch : ℕ) : List ℤ :=
  if ch < 4 then strChannel g n (env.baseline ch) (env.strExtra ch)
  else ladderChannel g n (env.baseline ch) env.ladExtra

/-- All five channel traces, `channel_data` (lines 38-66; `channels = 5`). -/
def synthChannels (g : ℤ → ℤ → ℤ → ℤ → ℤ) (n : ℕ) (env : RandEnv) :
    List (List ℤ) :=
  (List.range 5).map (synthChannel g n env)

/-- Clock reading used for the RUND/RUNT tags (`datetime.now()`). -/
structure DateTime where
  year : ℕ
  month : ℕ
  day : ℕ
  hour : ℕ
  minute : ℕ
  second : ℕ
deriving DecidableEq

/-- One ABIF directory entry as accumulated by `add_tag` (lines 19-28). -/
structure DirEntry where
  name : List ℕ
  etype : ℕ
  esize : ℕ
  count : ℕ
  size : ℕ
  offset : ℕ
deriving DecidableEq

/-- The packed bytes of one directory entry, struct.pack format 4sIIIII. -/
def DirEntry.pack (e : DirEntry) : List ℕ :=
  e.name ++ be32 e.etype ++ be32 e.esize ++ be32 e.count ++ be32 e.size
    ++ be32 e.offset

/-- Tag-name bytes: `name.encode('ascii')[:4].ljust(4, b'\x00')`. -/
def tagName (s : String) : List ℕ :=
  (asciiBytes s).take 4 ++ List.replicate (4 - (asciiBytes s).length) 0

/-- One `add_tag` call of `create_fsa_file` together with the payload bytes
written at the then-current offset. -/
structure TagSpec where
  name : String
  etype : ℕ
  esize : ℕ
  count : ℕ
  size : ℕ
  payload : List ℕ

/-- The five dye names (line 131). -/
def dyes : List String := ["FAM", "VIC", "NED", "PET", "LIZ"]

/-- The sequence of payload writes and `add_tag` calls performed by
`create_fsa_file` (lines 83-145), in order: sample name, machine, model,
run date, run time, scan count, lane, five dye names, five trace arrays. -/
def tagSpecs (sampleName : String) (now : DateTime)
    (channelData : List (List ℤ)) : List TagSpec :=
  [⟨"SMPL", 19, 1, (asciiBytes sampleName).length,
      (asciiBytes sampleName).length, asciiBytes sampleName⟩,
   ⟨"MCHN", 19, 1, (asciiBytes "ABI_3130").length,
      (asciiBytes "ABI_3130").length, asciiBytes "ABI_3130"⟩,
   ⟨"MODL", 19, 1, (asciiBytes "3130").length,
      (asciiBytes "3130").length, asciiBytes "3130"⟩,
   ⟨"RUND", 2, 4, 1, 4, be16 now.year ++ [now.month % 256, now.day % 256]⟩,
   ⟨"RUNT", 3, 4, 1, 4,
      [now.hour % 256, now.minute % 256, now.second % 256, 0]⟩,
   ⟨"SCAN", 4, 4, 1, 4, be32 8000⟩,
   ⟨"LANE", 5, 2, 1, 2, be16 1⟩]
  ++ dyes.map (fun dye =>
      ⟨"DyeN", 19, 1, (asciiBytes dye).length, (asciiBytes dye).length,
        asciiBytes dye⟩)
  ++ channelData.map (fun cd =>
      ⟨"DATA", 4, 2, cd.length, (i16ArrayBytes cd).length, i16ArrayBytes cd⟩)

/-- Assign payload offsets sequentially (the `current_offset` bookkeeping of
lines 83-145): each tag's directory entry records the offset at which its
payload begins, and the offset then advances by the payload's length. -/
def layout : ℕ → List TagSpec → List (DirEntry × List ℕ)
  | _, [] => []
  | off, t :: ts =>
      (⟨tagName t.name, t.etype, t.esize, t.count, t.size, off⟩, t.payload)
        :: layout (off + t.payload.length) ts

/-- The directory produced by a build: payloads start at offset
`128 + 1000 = 1128`, right after the header and the reserved directory
block. -/
def abifDirectory (sampleName : String) (now : DateTime)
    (channelData : List (List ℤ)) : List DirEntry :=
  (layout 1128 (tagSpecs sampleName now channelData)).map Prod.fst

/-- The payload heap: all payload bytes in write order. -/
def payloadBytes (ts : List TagSpec) : List ℕ := (ts.map TagSpec.payload).flatten

/-- The packed directory region contents (lines 147-150). -/
def dirBytes (d : List DirEntry) : List ℕ := (d.map DirEntry.pack).flatten

/-- The packed header (lines 152-162), struct.pack format 4sHHIIII: magic,
2-byte version `0x0101`, 2-byte directory offset, 4-byte entry count and
three unused 4-byte zero fields. -/
def headerPack (dirOffset nEntries : ℕ) : List ℕ :=
  asciiBytes "ABIF" ++ be16 0x0101 ++ be16 dirOffset ++ be32 nEntries
    ++ be32 0 ++ be32 0 ++ be32 0

/-- Overwrite the bytes of `f` from position `pos` on with `bs` (a seek
followed by a write; every seek of the source stays within the current file
length). -/
def writeAt (f : List ℕ) (pos : ℕ) (bs : List ℕ) : List ℕ :=
  f.take pos ++ bs ++ f.drop (pos + bs.length)

/-- The container bytes (lines 68-163): a 128-byte zero placeholder and a
1000-byte reserved directory block are written first, every payload is then
appended at the running offset, and finally the directory is written back at
offset 128 and the header at offset 0, padded with zero bytes to 128. -/
def buildFile (sampleName : String) (now : DateTime)
    (channelData : List (List ℤ)) : List ℕ :=
  let specs := tagSpecs sampleName now channelData
  let base := List.replicate 128 0
    ++ (List.replicate 1000 0 ++ payloadBytes specs)
  let dir := abifDirectory sampleName now channelData
  let withDir := writeAt base 128 (dirBytes dir)
  let header := headerPack 128 dir.length
  let withHeader := writeAt withDir 0 header
  writeAt withHeader 24 (List.replicate (128 - header.length) 0)

/-- The whole of `create_fsa_file` (lines 30-166): synthesize the five
channel traces with `data_points = 8000`, then write the container. -/
def create_fsa_file (g : ℤ → ℤ → ℤ → ℤ → ℤ) (env : RandEnv)
    (now : DateTime) (sampleName : String) : List ℕ :=
  buildFile sampleName now (synthChannels g 8000 env)

/-- The post-write validation of `main` (lines 186-191): re-open the file
and check that its first four bytes equal the magic signature b'ABIF'. -/
def validHeader (file : List ℕ) : Bool := file.take 4 == asciiBytes "ABIF"

/-! ### Shape and length lemmas -/

theorem asciiBytes_length (s : String) : (asciiBytes s).length = s.length := by
  rw [asciiBytes, List.length_map]; rfl

theorem i16ArrayBytes_length (d : List ℤ) :
    (i16ArrayBytes d).length = 2 * d.length := by
  induction d with
  | nil => rfl
  | cons v vs ih =>
      simp only [i16ArrayBytes, List.map_cons, List.flatten_cons,
        List.length_append, List.length_cons] at *
      simp [i16Bytes] at *
      omega

theorem tagName_length (s : String) : (tagName s).length = 4 := by
  simp only [tagName, List.length_append, List.length_take,
    List.length_replicate]
  omega

theorem DirEntry.pack_length (e : DirEntry) (h : e.name.length = 4) :
    e.pack.length = 24 := by
  simp [DirEntry.pack, be32, h]

theorem headerPack_length (o m : ℕ) : (headerPack o m).length = 24 := rfl

theorem layout_length (off : ℕ) (ts : List TagSpec) :
    (layout off ts).length = ts.length := by
  induction ts generalizing off with
  | nil => rfl
  | cons t ts ih => simp [layout, ih]

theorem layout_fst_mem {off : ℕ} {ts : List TagSpec} {e : DirEntry}
    (h : e ∈ (layout off ts).map Prod.fst) :
    ∃ t ∈ ts, e.name = tagName t.name ∧ e.etype = t.etype ∧ e.esize = t.esize
      ∧ e.count = t.count ∧ e.size = t.size := by
  induction ts generalizing off with
  | nil => simp [layout] at h
  | cons t ts ih =>
      simp only [layout, List.map_cons, List.mem_cons] at h
      rcases h with h | h
      · exact ⟨t, List.mem_cons_self _ _, by simp [h]⟩
      · obtain ⟨u, hu, hprops⟩ := ih h
        exact ⟨u, List.mem_cons_of_mem _ hu, hprops⟩

theorem layout_snd (off : ℕ) (ts : List TagSpec) :
    (layout off ts).map Prod.snd = ts.map TagSpec.payload := by
  induction ts generalizing off with
  | nil => rfl
  | cons t ts ih => simp [layout, ih]

theorem layout_typeWidth (off : ℕ) (ts : List TagSpec) :
    (layout off ts).map (fun ep => (ep.1.etype, ep.1.esize))
      = ts.map fun t => (t.etype, t.esize) := by
  induction ts generalizing off with
  | nil => rfl
  | cons t ts ih => simp [layout, ih]

theorem tagSpecs_length (s : String) (now : DateTime) (cd : List (List ℤ)) :
    (tagSpecs s now cd).length = 12 + cd.length := by
  simp [tagSpecs, dyes]
  omega

theorem abifDirectory_length (s : String) (now : DateTime)
    (cd : List (List ℤ)) : (abifDirectory s now cd).length = 12 + cd.length := by
  simp [abifDirectory, layout_length, tagSpecs_length]

theorem tagSpecs_payload_size (s : String) (now : DateTime)
    (cd : List (List ℤ)) :
    ∀ t ∈ tagSpecs s now cd,
      t.payload.length = t.size ∧ t.size = t.esize * t.count := by
  intro t ht
  simp only [tagSpecs, List.mem_append, List.mem_cons, List.not_mem_nil,
    or_false] at ht
  rcases ht with (ht | ht) | ht
  · rcases ht with h | h | h | h | h | h | h <;> subst h <;>
      simp [be16, be32, asciiBytes_length]
  · obtain ⟨d, _, rfl⟩ := List.mem_map.mp ht
    simp
  · obtain ⟨c, _, rfl⟩ := List.mem_map.mp ht
    simp [i16ArrayBytes_length]

theorem abifDirectory_names (s : String) (now : DateTime)
    (cd : List (List ℤ)) :
    ∀ e ∈ abifDirectory s now cd, e.name.length = 4 := by
  intro e he
  obtain ⟨t, _, hname, _⟩ := layout_fst_mem he
  rw [hname, tagName_length]

theorem dirBytes_length (d : List DirEntry)
    (h : ∀ e ∈ d, e.name.length = 4) :
    (dirBytes d).length = 24 * d.length := by
  induction d with
  | nil => rfl
  | cons e es ih =>
      have he : e.name.length = 4 := h e (List.mem_cons_self _ _)
      have hes : ∀ x ∈ es, x.name.length = 4 := fun x hx =>
        h x (List.mem_cons_of_mem _ hx)
      simp only [dirBytes, List.map_cons, List.flatten_cons,
        List.length_append, List.length_cons] at *
      rw [DirEntry.pack_length e he, ih hes]
      ring

/-- The fixed middle part of the payload heap: every payload between the
sample name and the five trace arrays, in write order. -/
def midBytes (now : DateTime) : List ℕ :=
  asciiBytes "ABI_3130" ++ asciiBytes "3130"
    ++ (be16 now.year ++ [now.month % 256, now.day % 256])
    ++ [now.hour % 256, now.minute % 256, now.second % 256, 0]
    ++ be32 8000 ++ be16 1
    ++ (dyes.map asciiBytes).flatten

theorem midBytes_length (now : DateTime) : (midBytes now).length = 41 := rfl

theorem payloadBytes_split (s : String) (now : DateTime)
    (cd : List (List ℤ)) :
    payloadBytes (tagSpecs s now cd)
      = asciiBytes s ++ (midBytes now ++ (cd.map i16ArrayBytes).flatten) := by
  simp only [payloadBytes, tagSpecs, midBytes, dyes, List.map_append,
    List.map_cons, List.map_nil, List.map_map, List.flatten_append,
    List.flatten_cons, List.flatten_nil, List.append_assoc]
  rfl

theorem payloadBytes_length (s : String) (now : DateTime)
    (cd : List (List ℤ)) :
    (payloadBytes (tagSpecs s now cd)).length
      = (asciiBytes s).length + 41 + (cd.map fun c => 2 * c.length).sum := by
  rw [payloadBytes_split, List.length_append, List.length_append,
    midBytes_length, List.length_flatten, List.map_map]
  have : (cd.map (List.length ∘ i16ArrayBytes)) = cd.map fun c => 2 * c.length :=
    List.map_congr_left fun c _ => i16ArrayBytes_length c
  rw [this]
  omega

/-! ### File assembly -/

theorem writeAt_exact (a b c bs : List ℕ) (h : b.length = bs.length) :
    writeAt (a ++ b ++ c) a.length bs = a ++ bs ++ c := by
  unfold writeAt
  have h1 : List.take a.length (a ++ b ++ c) = a := by
    rw [List.append_assoc]; exact List.take_left' rfl
  have h2 : List.drop (a.length + bs.length) (a ++ b ++ c) = c :=
    List.drop_left' (by simp [h])
  rw [h1, h2]

theorem writeAt_mid (p q r bs : List ℕ) (pos : ℕ) (hpos : p.length = pos)
    (hq : q.length = bs.length) :
    writeAt (p ++ q ++ r) pos bs = p ++ bs ++ r := by
  subst hpos; exact writeAt_exact p q r bs hq

/-- The built container in normal form: 24 header bytes, 104 zero pad bytes,
408 directory bytes, 592 unused reserved bytes, then the payload heap. -/
theorem buildFile_decomp (s : String) (now : DateTime) (cd : List (List ℤ))
    (h5 : cd.length = 5) :
    buildFile s now cd
      = headerPack 128 17
        ++ (List.replicate 104 0
          ++ (dirBytes (abifDirectory s now cd)
            ++ (List.replicate 592 0 ++ payloadBytes (tagSpecs s now cd)))) := by
  have hnames := abifDirectory_names s now cd
  have hdirlen : (abifDirectory s now cd).length = 17 := by
    rw [abifDirectory_length, h5]
  have hdb : (dirBytes (abifDirectory s now cd)).length = 408 := by
    rw [dirBytes_length _ hnames, hdirlen]
  simp only [buildFile]
  rw [hdirlen]
  set DB := dirBytes (abifDirectory s now cd) with hDB
  set P := payloadBytes (tagSpecs s now cd) with hP
  have hsplit : (List.replicate 1000 (0:ℕ))
      = List.replicate 408 0 ++ List.replicate 592 0 := by
    rw [← List.replicate_add]
  have step1 : writeAt (List.replicate 128 0 ++ (List.replicate 1000 0 ++ P))
      128 DB = List.replicate 128 0 ++ (DB ++ (List.replicate 592 0 ++ P)) := by
    rw [hsplit]
    have : List.replicate 128 (0:ℕ)
          ++ (List.replicate 408 0 ++ List.replicate 592 0 ++ P)
        = List.replicate 128 0 ++ List.replicate 408 0
          ++ (List.replicate 592 0 ++ P) := by
      simp only [List.append_assoc]
    rw [this, writeAt_mid _ _ _ _ 128 (by rw [List.length_replicate])
        (by rw [List.length_replicate, hdb]),
      List.append_assoc]
  have step2 : writeAt (List.replicate 128 0 ++ (DB ++ (List.replicate 592 0 ++ P)))
      0 (headerPack 128 17)
      = headerPack 128 17
        ++ (List.replicate 104 0 ++ (DB ++ (List.replicate 592 0 ++ P))) := by
    have hsplit2 : (List.replicate 128 (0:ℕ))
        = List.replicate 24 0 ++ List.replicate 104 0 := by
      rw [← List.replicate_add]
    rw [hsplit2]
    have : List.replicate 24 (0:ℕ) ++ List.replicate 104 0
          ++ (DB ++ (List.replicate 592 0 ++ P))
        = ([] : List ℕ) ++ List.replicate 24 0
          ++ (List.replicate 104 0 ++ (DB ++ (List.replicate 592 0 ++ P))) := by
      simp only [List.append_assoc, List.nil_append]
    rw [this, writeAt_mid _ _ _ _ 0 List.length_nil
        (by rw [List.length_replicate, headerPack_length]),
      List.nil_append]
  have step3 : writeAt (headerPack 128 17
        ++ (List.replicate 104 0 ++ (DB ++ (List.replicate 592 0 ++ P))))
      24 (List.replicate (128 - (headerPack 128 17).length) 0)
      = headerPack 128 17
        ++ (List.replicate 104 0 ++ (DB ++ (List.replicate 592 0 ++ P))) := by
    rw [headerPack_length]
    have : headerPack 128 17
          ++ (List.replicate 104 0 ++ (DB ++ (List.replicate 592 0 ++ P)))
        = headerPack 128 17 ++ List.replicate 104 0
          ++ (DB ++ (List.replicate 592 0 ++ P)) := by
      simp only [List.append_assoc]
    rw [this, writeAt_mid _ _ _ _ 24 (headerPack_length _ _)
        (by simp only [List.length_replicate]),
      List.append_assoc]
  rw [step1, step2, step3]

/-! ### Synthesizer lemmas -/

theorem overlayFrom_length (f : ℤ → ℤ) (lo hi : ℤ) :
    ∀ (d : List ℤ) (i : ℕ), (overlayFrom f lo hi i d).length = d.length := by
  intro d
  induction d with
  | nil => intro i; rfl
  | cons v vs ih => intro i; simp [overlayFrom, ih]

theorem overlayMax_length (d : List ℤ) (lo hi : ℤ) (f : ℤ → ℤ) :
    (overlayMax d lo hi f).length = d.length := overlayFrom_length f lo hi d 0

theorem applyPeaks_length {step : ℕ → ℤ → List ℤ → List ℤ}
    (h : ∀ k p d, (step k p d).length = d.length) :
    ∀ (ps : List ℤ) (k : ℕ) (d : List ℤ),
      (applyPeaks step k ps d).length = d.length := by
  intro ps
  induction ps with
  | nil => intro k d; rfl
  | cons p ps ih => intro k d; rw [applyPeaks, ih, h]

theorem baseTrace_length (n : ℕ) (b : ℕ → ℤ) : (baseTrace n b).length = n := by
  simp [baseTrace]

theorem applyStrPeak_length (g : ℤ → ℤ → ℤ → ℤ → ℤ) (n : ℕ) (e pos : ℤ)
    (d : List ℤ) : (applyStrPeak g n e pos d).length = d.length := by
  unfold applyStrPeak
  split
  · exact overlayMax_length _ _ _ _
  · rfl

theorem applyLadderPeak_length (g : ℤ → ℤ → ℤ → ℤ → ℤ) (n : ℕ) (e pos : ℤ)
    (d : List ℤ) : (applyLadderPeak g n e pos d).length = d.length := by
  unfold applyLadderPeak
  split
  · exact overlayMax_length _ _ _ _
  · rfl

theorem strChannel_length (g : ℤ → ℤ → ℤ → ℤ → ℤ) (n : ℕ) (b : ℕ → ℤ)
    (extra : ℕ → ℤ) : (strChannel g n b extra).length = n := by
  unfold strChannel
  rw [applyPeaks_length (fun k p d => applyStrPeak_length g n (extra k) p d),
    baseTrace_length]

theorem ladderChannel_length (g : ℤ → ℤ → ℤ → ℤ → ℤ) (n : ℕ) (b : ℕ → ℤ)
    (extra : ℕ → ℤ) : (ladderChannel g n b extra).length = n := by
  unfold ladderChannel
  rw [applyPeaks_length (fun k p d => applyLadderPeak_length g n (extra k) p d),
    baseTrace_length]

theorem synthChannel_length (g : ℤ → ℤ → ℤ → ℤ → ℤ) (n : ℕ) (env : RandEnv)
    (ch : ℕ) : (synthChannel g n env ch).length = n := by
  unfold synthChannel
  split
  · exact strChannel_length _ _ _ _
  · exact ladderChannel_length _ _ _ _

theorem synthChannels_length (g : ℤ → ℤ → ℤ → ℤ → ℤ) (n : ℕ)
    (env : RandEnv) : (synthChannels g n env).length = 5 := by
  simp [synthChannels]

theorem synthChannels_trace_length (g : ℤ → ℤ → ℤ → ℤ → ℤ) (n : ℕ)
    (env : RandEnv) : ∀ tr ∈ synthChannels g n env, tr.length = n := by
  intro tr htr
  obtain ⟨ch, _, rfl⟩ := List.mem_map.mp htr
  exact synthChannel_length g n env ch

theorem clip16_nonneg (x : ℤ) : 0 ≤ clip16 x := le_max_left 0 _

theorem clip16_le (x : ℤ) : clip16 x ≤ 32767 :=
  max_le (by norm_num) (min_le_right x _)

theorem overlayFrom_pred (P : ℤ → Prop) {f : ℤ → ℤ} {lo hi : ℤ}
    (hP : ∀ v x, P v → P (max v (f x))) :
    ∀ (d : List ℤ) (i : ℕ), (∀ v ∈ d, P v) →
      ∀ v ∈ overlayFrom f lo hi i d, P v := by
  intro d
  induction d with
  | nil => intro i _ v hv; simp [overlayFrom] at hv
  | cons w ws ih =>
      intro i hd v hv
      simp only [overlayFrom, List.mem_cons] at hv
      rcases hv with hv | hv
      · subst hv
        by_cases hc : lo ≤ (i : ℤ) ∧ (i : ℤ) < hi
        · rw [if_pos hc]
          exact hP _ _ (hd w (List.mem_cons_self _ _))
        · rw [if_neg hc]
          exact hd w (List.mem_cons_self _ _)
      · exact ih (i + 1) (fun u hu => hd u (List.mem_cons_of_mem _ hu)) v hv

theorem applyPeaks_pred (P : List ℤ → Prop) {step : ℕ → ℤ → List ℤ → List ℤ}
    (hstep : ∀ k p d, P d → P (step k p d)) :
    ∀ (ps : List ℤ) (k : ℕ) (d : List ℤ), P d → P (applyPeaks step k ps d) := by
  intro ps
  induction ps with
  | nil => intro k d h; exact h
  | cons p ps ih => intro k d h; exact ih (k + 1) _ (hstep k p d h)

theorem baseTrace_bounds (n : ℕ) (b : ℕ → ℤ) :
    ∀ v ∈ baseTrace n b, 0 ≤ v ∧ v ≤ 32767 := by
  intro v hv
  obtain ⟨i, _, rfl⟩ := List.mem_map.mp hv
  exact ⟨clip16_nonneg _, clip16_le _⟩

theorem strChannel_bounds (g : ℤ → ℤ → ℤ → ℤ → ℤ) (n : ℕ) (b : ℕ → ℤ)
    (extra : ℕ → ℤ)
    (hg : ∀ p c w x, 0 ≤ p → 0 ≤ g p c w x ∧ g p c w x ≤ p)
    (he : ∀ k, 0 ≤ extra k ∧ extra k < 300) :
    ∀ v ∈ strChannel g n b extra, 0 ≤ v ∧ v ≤ 32767 := by
  unfold strChannel
  refine applyPeaks_pred (fun d => ∀ v ∈ d, 0 ≤ v ∧ v ≤ 32767) ?_
    strPositions 0 _ (baseTrace_bounds n b)
  intro k p d hd
  unfold applyStrPeak
  split
  · intro v hv
    refine overlayFrom_pred (fun v => 0 ≤ v ∧ v ≤ 32767) ?_ d 0 hd v hv
    intro w x hw
    have hpk : (0:ℤ) ≤ 200 + extra k := by have := (he k).1; omega
    have hgx := hg (200 + extra k) p 5 x hpk
    refine ⟨le_trans hw.1 (le_max_left _ _), max_le hw.2 ?_⟩
    have h1 := hgx.2
    have h2 := (he k).2
    omega
  · exact hd

theorem ladderChannel_bounds (g : ℤ → ℤ → ℤ → ℤ → ℤ) (n : ℕ) (b : ℕ → ℤ)
    (extra : ℕ → ℤ)
    (hg : ∀ p c w x, 0 ≤ p → 0 ≤ g p c w x ∧ g p c w x ≤ p)
    (he : ∀ k, 0 ≤ extra k ∧ extra k < 200) :
    ∀ v ∈ ladderChannel g n b extra, 0 ≤ v ∧ v ≤ 32767 := by
  unfold ladderChannel
  refine applyPeaks_pred (fun d => ∀ v ∈ d, 0 ≤ v ∧ v ≤ 32767) ?_
    ladderPositions 0 _ (baseTrace_bounds n b)
  intro k p d hd
  unfold applyLadderPeak
  split
  · intro v hv
    refine overlayFrom_pred (fun v => 0 ≤ v ∧ v ≤ 32767) ?_ d 0 hd v hv
    intro w x hw
    have hpk : (0:ℤ) ≤ 300 + extra k := by have := (he k).1; omega
    have hgx := hg (300 + extra k) p 4 x hpk
    refine ⟨le_trans hw.1 (le_max_left _ _), max_le hw.2 ?_⟩
    have h1 := hgx.2
    have h2 := (he k).2
    omega
  · exact hd

/-- A concrete instantiation of the Gaussian-bump environment parameter,
used to evaluate witnesses on explicit inputs.  It satisfies the exact facts
of the floating-point computation that the theorems assume: its value lies
between 0 and the peak height, and at the centre it equals the peak height
exactly. -/
def gaussModel (peak center width x : ℤ) : ℤ :=
  if x = center then peak else 0 * width

/-- The all-zero draw environment, one possible outcome of the random
draws. -/
def zeroEnv : RandEnv := ⟨fun _ _ => 0, fun _ _ => 0, fun _ => 0⟩

/-- A fixed clock reading used in concrete evaluations. -/
def now0 : DateTime := ⟨2024, 1, 1, 0, 0, 0⟩

theorem gaussModel_fact (p c w x : ℤ) (hp : 0 ≤ p) :
    0 ≤ gaussModel p c w x ∧ gaussModel p c w x ≤ p := by
  unfold gaussModel
  split <;> constructor <;> omega

/-! ### Derived container helpers -/

theorem create_fsa_decomp (g : ℤ → ℤ → ℤ → ℤ → ℤ) (env : RandEnv)
    (now : DateTime) (s : String) :
    create_fsa_file g env now s
      = headerPack 128 17
        ++ (List.replicate 104 0
          ++ (dirBytes (abifDirectory s now (synthChannels g 8000 env))
            ++ (List.replicate 592 0
              ++ payloadBytes (tagSpecs s now (synthChannels g 8000 env))))) :=
  buildFile_decomp s now _ (synthChannels_length g 8000 env)

theorem create_take128 (g : ℤ → ℤ → ℤ → ℤ → ℤ) (env : RandEnv)
    (now : DateTime) (s : String) :
    (create_fsa_file g env now s).take 128
      = headerPack 128 17 ++ List.replicate 104 0 := by
  rw [create_fsa_decomp, ← List.append_assoc]
  exact List.take_left'
    (by rw [List.length_append, headerPack_length, List.length_replicate])

theorem create_count_field (g : ℤ → ℤ → ℤ → ℤ → ℤ) (env : RandEnv)
    (now : DateTime) (s : String) :
    ((create_fsa_file g env now s).drop 8).take 4 = be32 17 := by
  rw [create_fsa_decomp,
    List.drop_append_of_le_length (by rw [headerPack_length]; norm_num),
    List.take_append_of_le_length (by rw [List.length_drop, headerPack_length]; norm_num)]
  decide

/-! ### Claims C1, C2, C9, C10, C7 -/

set_option maxRecDepth 8000 in
/-- C1 (amended): the container written by create_fsa_file begins with a
header of exactly 128 bytes: the 4-byte ASCII magic "ABIF", the 2-byte
big-endian version 0x0101, the 2-byte (not 4-byte) big-endian absolute
offset 128 of the directory region, the 4-byte big-endian count of directory
entries (17), and 116 zero bytes of padding. -/
theorem c1_header_layout (g : ℤ → ℤ → ℤ → ℤ → ℤ) (env : RandEnv)
    (now : DateTime) (s : String) :
    (create_fsa_file g env now s).take 128
      = asciiBytes "ABIF" ++ be16 0x0101 ++ be16 128 ++ be32 17
        ++ List.replicate 116 0
    ∧ (asciiBytes "ABIF" ++ be16 0x0101 ++ be16 128 ++ be32 17
        ++ List.replicate 116 0).length = 128 := by
  constructor
  · rw [create_take128]; decide
  · decide

/-- The header layout asserted by claim C1, following the spec's words: after
the 4-byte magic and the 2-byte big-endian version come a 4-byte big-endian
absolute directory offset and a 4-byte big-endian entry count, with the rest
of the 128 header bytes zero-padded. -/
def specHeaderLayout (file : List ℕ) (dirOffset nEntries : ℕ) : Prop :=
  file.take 128 = asciiBytes "ABIF" ++ be16 0x0101 ++ be32 dirOffset
    ++ be32 nEntries ++ List.replicate 114 0

set_option maxRecDepth 8000 in
/-- C1 (counterexample): the concrete build for sample "SAMPLE001" does not
carry its directory offset (128) as a 4-byte big-endian field: the source
packs it with struct format H, so it occupies only 2 bytes. -/
theorem c1_counterexample :
    ¬ specHeaderLayout (create_fsa_file gaussModel zeroEnv now0 "SAMPLE001")
        128 17 := by
  unfold specHeaderLayout
  rw [create_take128]
  decide

/-- C2 (amended): for the "SAMPLE001" build with 5 channels and 8000 samples
per channel, the directory-entry count written into the header equals
5 (dye-name tags) + 5 (trace-array tags) + 7 (fixed metadata tags: sample
name, machine, model, run date, run time, scan count, lane), i.e. 17. -/
theorem c2_directory_count (g : ℤ → ℤ → ℤ → ℤ → ℤ) (env : RandEnv)
    (now : DateTime) :
    (abifDirectory "SAMPLE001" now (synthChannels g 8000 env)).length
        = 5 + 5 + 7
    ∧ ((create_fsa_file g env now "SAMPLE001").drop 8).take 4
        = be32 (5 + 5 + 7) := by
  constructor
  · rw [abifDirectory_length, synthChannels_length]
  · rw [create_count_field]

/-- C2 (counterexample): the directory of the concrete "SAMPLE001" build has
17 entries, not 16: there are seven fixed metadata tags (SMPL, MCHN, MODL,
RUND, RUNT, SCAN, LANE), not six. -/
theorem c2_counterexample :
    (abifDirectory "SAMPLE001" now0 (synthChannels gaussModel 8000 zeroEnv)).length
        ≠ 16
    ∧ ((create_fsa_file gaussModel zeroEnv now0 "SAMPLE001").drop 8).take 4
        ≠ be32 16 := by
  constructor
  · rw [abifDirectory_length, synthChannels_length]; decide
  · rw [create_count_field]; decide

/-- C9: the first four bytes of every container produced by create_fsa_file
are the ASCII magic "ABIF", so the post-write validation check in main
reports the file as valid. -/
theorem c9_magic_bytes (g : ℤ → ℤ → ℤ → ℤ → ℤ) (env : RandEnv)
    (now : DateTime) (s : String) :
    (create_fsa_file g env now s).take 4 = asciiBytes "ABIF"
    ∧ validHeader (create_fsa_file g env now s) = true := by
  have h4 : (create_fsa_file g env now s).take 4 = asciiBytes "ABIF" := by
    have h128 := create_take128 g env now s
    have hmin : (create_fsa_file g env now s).take 4
        = ((create_fsa_file g env now s).take 128).take 4 := by
      rw [List.take_take]
      norm_num
    rw [hmin, h128]
    decide
  refine ⟨h4, ?_⟩
  rw [validHeader, h4]
  decide

/-- C10: every directory entry the encoder emits satisfies
total-byte-size = element-byte-width x element-count. -/
theorem c10_size_product (s : String) (now : DateTime) (cd : List (List ℤ)) :
    ∀ e ∈ abifDirectory s now cd, e.size = e.esize * e.count := by
  intro e he
  obtain ⟨t, ht, _, _, hesize, hcount, hsize⟩ := layout_fst_mem he
  rw [hsize, hesize, hcount]
  exact (tagSpecs_payload_size s now cd t ht).2

/-- Witness for C10: the LANE entry of a concrete build satisfies
2 = 2 x 1. -/
theorem c10_size_product_witness :
    (⟨tagName "LANE", 5, 2, 1, 2, 1161⟩ : DirEntry)
        ∈ abifDirectory "SAMPLE001" now0 []
    ∧ (2 : ℕ) = 2 * 1 :=
  ⟨by decide, c10_size_product "SAMPLE001" now0 []
    ⟨tagName "LANE", 5, 2, 1, 2, 1161⟩ (by decide)⟩

/-- C7: for every synthesized channel trace, every sample lies in
[0, 32767] and the trace length equals the requested sample count,
regardless of the random baseline and peak-height draws (the baseline draws
are arbitrary integers; the peak-height draws range over the randint
domains of the source, [0, 300) for STR peaks and [0, 200) for ladder
peaks). -/
theorem c7_trace_bounds (g : ℤ → ℤ → ℤ → ℤ → ℤ) (n : ℕ) (env : RandEnv)
    (hg : ∀ p c w x, 0 ≤ p → 0 ≤ g p c w x ∧ g p c w x ≤ p)
    (hstr : ∀ ch k, 0 ≤ env.strExtra ch k ∧ env.strExtra ch k < 300)
    (hlad : ∀ k, 0 ≤ env.ladExtra k ∧ env.ladExtra k < 200) :
    ∀ tr ∈ synthChannels g n env,
      tr.length = n ∧ ∀ v ∈ tr, 0 ≤ v ∧ v ≤ 32767 := by
  intro tr htr
  refine ⟨synthChannels_trace_length g n env tr htr, ?_⟩
  obtain ⟨ch, _, rfl⟩ := List.mem_map.mp htr
  unfold synthChannel
  split
  · exact strChannel_bounds g n _ _ hg (hstr ch)
  · exact ladderChannel_bounds g n _ _ hg hlad

/-- Witness for C7 at the concrete Gaussian model and the all-zero draw
environment with 8000 samples. -/
theorem c7_trace_bounds_witness :
    (∀ p c w x, (0:ℤ) ≤ p → 0 ≤ gaussModel p c w x ∧ gaussModel p c w x ≤ p)
    ∧ (∀ ch k, (0:ℤ) ≤ zeroEnv.strExtra ch k ∧ zeroEnv.strExtra ch k < 300)
    ∧ (∀ k, (0:ℤ) ≤ zeroEnv.ladExtra k ∧ zeroEnv.ladExtra k < 200)
    ∧ ∀ tr ∈ synthChannels gaussModel 8000 zeroEnv,
        tr.length = 8000 ∧ ∀ v ∈ tr, 0 ≤ v ∧ v ≤ 32767 := by
  refine ⟨gaussModel_fact, fun ch k => ⟨le_refl 0, (by decide : (0:ℤ) < 300)⟩,
    fun k => ⟨le_refl 0, (by decide : (0:ℤ) < 200)⟩, ?_⟩
  exact c7_trace_bounds gaussModel 8000 zeroEnv gaussModel_fact
    (fun ch k => ⟨le_refl 0, (by decide : (0:ℤ) < 300)⟩)
    (fun k => ⟨le_refl 0, (by decide : (0:ℤ) < 200)⟩)

/-! ### Pointwise synthesizer facts -/

theorem overlayFrom_getD (f : ℤ → ℤ) (lo hi : ℤ) :
    ∀ (d : List ℤ) (i k : ℕ), k < d.length →
      (overlayFrom f lo hi i d).getD k 0
        = if lo ≤ ((i + k : ℕ) : ℤ) ∧ ((i + k : ℕ) : ℤ) < hi
          then max (d.getD k 0) (f ((i + k : ℕ) : ℤ)) else d.getD k 0 := by
  intro d
  induction d with
  | nil => intro i k h; simp at h
  | cons v vs ih =>
      intro i k h
      cases k with
      | zero => simp [overlayFrom]
      | succ k =>
          simp only [overlayFrom, List.getD_cons_succ]
          rw [ih (i + 1) k (by simpa using h)]
          have hik : i + 1 + k = i + (k + 1) := by omega
          rw [hik]

theorem overlayMax_getD (d : List ℤ) (lo hi : ℤ) (f : ℤ → ℤ) (k : ℕ)
    (h : k < d.length) :
    (overlayMax d lo hi f).getD k 0
      = if lo ≤ (k : ℤ) ∧ (k : ℤ) < hi then max (d.getD k 0) (f k)
        else d.getD k 0 := by
  have := overlayFrom_getD f lo hi d 0 k h
  simpa using this

theorem applyStrPeak_getD_mono (g : ℤ → ℤ → ℤ → ℤ → ℤ) (n : ℕ) (e pos : ℤ)
    (d : List ℤ) (k : ℕ) (h : k < d.length) :
    d.getD k 0 ≤ (applyStrPeak g n e pos d).getD k 0 := by
  unfold applyStrPeak
  split
  · rw [overlayMax_getD d _ _ _ k h]
    split
    · exact le_max_left _ _
    · exact le_refl _
  · exact le_refl _

theorem applyLadderPeak_getD_mono (g : ℤ → ℤ → ℤ → ℤ → ℤ) (n : ℕ)
    (e pos : ℤ) (d : List ℤ) (k : ℕ) (h : k < d.length) :
    d.getD k 0 ≤ (applyLadderPeak g n e pos d).getD k 0 := by
  unfold applyLadderPeak
  split
  · rw [overlayMax_getD d _ _ _ k h]
    split
    · exact le_max_left _ _
    · exact le_refl _
  · exact le_refl _

theorem applyPeaks_getD_mono {step : ℕ → ℤ → List ℤ → List ℤ}
    (hlen : ∀ k p d, (step k p d).length = d.length)
    (hmono : ∀ k p d j, j < d.length → d.getD j 0 ≤ (step k p d).getD j 0) :
    ∀ (ps : List ℤ) (k : ℕ) (d : List ℤ) (j : ℕ), j < d.length →
      d.getD j 0 ≤ (applyPeaks step k ps d).getD j 0 := by
  intro ps
  induction ps with
  | nil => intro k d j _; exact le_refl _
  | cons p ps ih =>
      intro k d j h
      show d.getD j 0 ≤ (applyPeaks step (k + 1) ps (step k p d)).getD j 0
      calc d.getD j 0 ≤ (step k p d).getD j 0 := hmono k p d j h
        _ ≤ (applyPeaks step (k + 1) ps (step k p d)).getD j 0 :=
            ih (k + 1) _ j (by rw [hlen]; exact h)

theorem applyPeaks_append (step : ℕ → ℤ → List ℤ → List ℤ) :
    ∀ (ps1 ps2 : List ℤ) (k : ℕ) (d : List ℤ),
      applyPeaks step k (ps1 ++ ps2) d
        = applyPeaks step (k + ps1.length) ps2 (applyPeaks step k ps1 d) := by
  intro ps1
  induction ps1 with
  | nil => intro ps2 k d; simp [applyPeaks]
  | cons p ps ih =>
      intro ps2 k d
      show applyPeaks step (k + 1) (ps ++ ps2) (step k p d)
          = applyPeaks step (k + (p :: ps).length) ps2
              (applyPeaks step (k + 1) ps (step k p d))
      rw [ih]
      have : k + 1 + ps.length = k + (p :: ps).length := by
        simp [List.length_cons]; omega
      rw [this]

theorem baseTrace_getD (n : ℕ) (b : ℕ → ℤ) (k : ℕ) (h : k < n) :
    (baseTrace n b).getD k 0 = clip16 (b k) := by
  unfold baseTrace
  rw [List.getD_eq_getElem _ _ (by simpa using h), List.getElem_map,
    List.getElem_range]

/-- A sample-channel peak that actually applies pushes every sample of its
window up to at least the Gaussian value there, and later peaks never lower
a sample. -/
theorem strChannel_window_ge (g : ℤ → ℤ → ℤ → ℤ → ℤ) (n : ℕ) (b : ℕ → ℤ)
    (extra : ℕ → ℤ) (ps1 ps2 : List ℤ) (pos : ℤ)
    (hsplit : strPositions = ps1 ++ pos :: ps2)
    (hin : 0 ≤ pos - 20 ∧ pos + 20 < (n : ℤ))
    (j : ℕ) (hj1 : pos - 20 ≤ (j : ℤ)) (hj2 : (j : ℤ) < pos + 20) :
    g (200 + extra ps1.length) pos 5 j
      ≤ (strChannel g n b extra).getD j 0 := by
  have hjn : j < n := by
    have := hin.2
    omega
  unfold strChannel
  rw [hsplit, applyPeaks_append]
  set stp := fun k q d => applyStrPeak g n (extra k) q d with hstp
  set d1 := applyPeaks stp 0 ps1 (baseTrace n b) with hd1
  have hlen : ∀ k p d, (stp k p d).length = d.length := fun k p d =>
    applyStrPeak_length g n (extra k) p d
  have hd1len : d1.length = n := by
    rw [hd1, applyPeaks_length hlen, baseTrace_length]
  show g (200 + extra ps1.length) pos 5 j
      ≤ (applyPeaks stp (0 + ps1.length) (pos :: ps2) d1).getD j 0
  have hstep : applyPeaks stp (0 + ps1.length) (pos :: ps2) d1
      = applyPeaks stp (0 + ps1.length + 1) ps2 (stp (0 + ps1.length) pos d1) :=
    rfl
  rw [hstep]
  have happ : stp (0 + ps1.length) pos d1
      = overlayMax d1 (pos - 20) (pos + 20)
          (g (200 + extra (0 + ps1.length)) pos 5) := by
    show applyStrPeak g n (extra (0 + ps1.length)) pos d1 = _
    unfold applyStrPeak
    rw [if_pos hin]
  refine le_trans ?_ (applyPeaks_getD_mono hlen
    (fun k p d j hj => applyStrPeak_getD_mono g n (extra k) p d j hj)
    ps2 _ _ j ?_)
  · rw [happ, overlayMax_getD _ _ _ _ j (by rw [hd1len]; exact hjn),
      if_pos ⟨hj1, hj2⟩]
    simp only [Nat.zero_add]
    exact le_max_right _ _
  · rw [happ, overlayMax_length, hd1len]
    exact hjn

/-- Strict upper bound on the zero-draw STR trace: with all-zero baseline
and height draws, no sample of an STR channel ever exceeds 200. -/
theorem strChannel_zero_le (j : ℕ) :
    (strChannel gaussModel 8000 (zeroEnv.baseline 0) (zeroEnv.strExtra 0)).getD j 0
      ≤ 200 := by
  have hmem : ∀ v ∈ strChannel gaussModel 8000 (zeroEnv.baseline 0)
      (zeroEnv.strExtra 0), v ≤ 200 := by
    unfold strChannel
    refine applyPeaks_pred (fun d => ∀ v ∈ d, v ≤ 200) ?_ strPositions 0 _ ?_
    · intro k p d hd
      unfold applyStrPeak
      split
      · intro v hv
        refine overlayFrom_pred (fun v => v ≤ 200) ?_ d 0 hd v hv
        intro w x hw
        have h0 : zeroEnv.strExtra 0 k = 0 := rfl
        have hb := (gaussModel_fact (200 + zeroEnv.strExtra 0 k) p 5 x
          (by rw [h0]; norm_num)).2
        rw [max_le_iff]
        refine ⟨hw, ?_⟩
        rw [h0]
        rw [h0] at hb
        omega
      · exact hd
    · intro v hv
      obtain ⟨i, _, rfl⟩ := List.mem_map.mp hv
      show clip16 (zeroEnv.baseline 0 i) ≤ 200
      show clip16 0 ≤ 200
      decide
  by_cases hj : j < (strChannel gaussModel 8000 (zeroEnv.baseline 0)
      (zeroEnv.strExtra 0)).length
  · rw [List.getD_eq_getElem _ _ hj]
    exact hmem _ (List.getElem_mem hj)
  · rw [List.getD_eq_default _ _ (by omega)]
    decide

/-! ### Claims C8 and C4 -/

/-- C8 (amended): for a sample channel with a configured peak at position P
whose window [P-20, P+20) passes the code's bounds check, some sample inside
the window reaches at least 200 + draw, hence at least the minimum
configured peak height 200, and so strictly exceeds the mean baseline
parameter 50 — but it need not exceed 50 + 200 (see the counterexample). -/
theorem c8_peak_height (g : ℤ → ℤ → ℤ → ℤ → ℤ) (env : RandEnv) (ch : ℕ)
    (ps1 ps2 : List ℤ) (pos : ℤ)
    (hgc : ∀ p c w, 0 ≤ p → g p c w c = p)
    (hsplit : strPositions = ps1 ++ pos :: ps2)
    (hin : 0 ≤ pos - 20 ∧ pos + 20 < (8000 : ℤ))
    (he : 0 ≤ env.strExtra ch ps1.length) :
    ∃ j : ℕ, pos - 20 ≤ (j : ℤ) ∧ (j : ℤ) < pos + 20
      ∧ 200 ≤ (strChannel g 8000 (env.baseline ch) (env.strExtra ch)).getD j 0
      ∧ 50 < (strChannel g 8000 (env.baseline ch) (env.strExtra ch)).getD j 0 := by
  have hpos0 : 0 ≤ pos := by have := hin.1; omega
  have hcast : ((pos.toNat : ℕ) : ℤ) = pos := Int.toNat_of_nonneg hpos0
  have hge := strChannel_window_ge g 8000 (env.baseline ch) (env.strExtra ch)
    ps1 ps2 pos hsplit hin pos.toNat (by rw [hcast]; omega)
    (by rw [hcast]; omega)
  rw [hcast, hgc _ _ _ (by omega)] at hge
  exact ⟨pos.toNat, by rw [hcast]; omega, by rw [hcast]; omega, by omega,
    by omega⟩

/-- Witness for C8 (amended): peak position 1000 of channel 0 under the
concrete Gaussian model and the all-zero draws. -/
theorem c8_peak_height_witness :
    (∀ p c w, (0:ℤ) ≤ p → gaussModel p c w c = p)
    ∧ strPositions = [] ++ (1000 : ℤ) :: [2000, 3000, 4000, 5000, 6000]
    ∧ ((0:ℤ) ≤ 1000 - 20 ∧ (1000 : ℤ) + 20 < 8000)
    ∧ (0:ℤ) ≤ zeroEnv.strExtra 0 ([] : List ℤ).length
    ∧ ∃ j : ℕ, (1000 : ℤ) - 20 ≤ (j : ℤ) ∧ (j : ℤ) < 1000 + 20
      ∧ 200 ≤ (strChannel gaussModel 8000 (zeroEnv.baseline 0)
          (zeroEnv.strExtra 0)).getD j 0
      ∧ 50 < (strChannel gaussModel 8000 (zeroEnv.baseline 0)
          (zeroEnv.strExtra 0)).getD j 0 := by
  refine ⟨fun p c w hp => by simp [gaussModel], rfl, by decide, le_refl 0, ?_⟩
  exact c8_peak_height gaussModel zeroEnv 0 [] [2000, 3000, 4000, 5000, 6000]
    1000 (fun p c w hp => by simp [gaussModel]) rfl (by decide) (le_refl 0)

/-- C8 (counterexample): under the all-zero draws (a possible random
outcome) every sample of STR channel 0 stays at or below 200, so no sample
of the window [980, 1020) around the in-bounds peak at 1000 exceeds the
mean baseline value 50 by the minimum peak height 200. -/
theorem c8_counterexample :
    ¬ ∃ j : ℕ, (1000 : ℤ) - 20 ≤ (j : ℤ) ∧ (j : ℤ) < 1000 + 20
      ∧ 50 + 200 ≤ (strChannel gaussModel 8000 (zeroEnv.baseline 0)
          (zeroEnv.strExtra 0)).getD j 0 := by
  rintro ⟨j, _, _, hj⟩
  have := strChannel_zero_le j
  omega

/-- C4 (amended): the edge policy of the synthesizer.  A sample-channel peak
is applied exactly when 0 ≤ pos - 20 and pos + 20 < sample_count and is
otherwise skipped entirely (the whole synthesis equals the synthesis without
that peak); a ladder-channel position is skipped only when pos ≥
sample_count, while a position inside the range whose window leaves
[0, sample_count) is clamped to [0, sample_count) and partially applied; no
trace ever changes length (no wraparound); an in-bounds sample-channel peak
is applied in full across its window. -/
theorem c4_edge_policy (g : ℤ → ℤ → ℤ → ℤ → ℤ) (n : ℕ) (b : ℕ → ℤ)
    (extra : ℕ → ℤ) :
    (∀ e pos d, ¬(0 ≤ pos - 20 ∧ pos + 20 < (n : ℤ)) →
        applyStrPeak g n e pos d = d)
    ∧ (∀ ps1 pos ps2, strPositions = ps1 ++ pos :: ps2 →
        ¬(0 ≤ pos - 20 ∧ pos + 20 < (n : ℤ)) →
        strChannel g n b extra
          = applyPeaks (fun k q d => applyStrPeak g n (extra k) q d)
              (ps1.length + 1) ps2
              (applyPeaks (fun k q d => applyStrPeak g n (extra k) q d) 0 ps1
                (baseTrace n b)))
    ∧ (∀ e pos d, (n : ℤ) ≤ pos → applyLadderPeak g n e pos d = d)
    ∧ (∀ e pos d, pos < (n : ℤ) →
        applyLadderPeak g n e pos d
          = overlayMax d (max 0 (pos - 15)) (min (n : ℤ) (pos + 15))
              (g (300 + e) pos 4))
    ∧ (strChannel g n b extra).length = n
    ∧ (ladderChannel g n b extra).length = n
    ∧ (∀ ps1 pos ps2, strPositions = ps1 ++ pos :: ps2 →
        (0 ≤ pos - 20 ∧ pos + 20 < (n : ℤ)) →
        ∀ j : ℕ, pos - 20 ≤ (j : ℤ) → (j : ℤ) < pos + 20 →
          g (200 + extra ps1.length) pos 5 j
            ≤ (strChannel g n b extra).getD j 0) := by
  refine ⟨?_, ?_, ?_, ?_, strChannel_length g n b extra,
    ladderChannel_length g n b extra,
    fun ps1 pos ps2 hsplit hin j hj1 hj2 =>
      strChannel_window_ge g n b extra ps1 ps2 pos hsplit hin j hj1 hj2⟩
  · intro e pos d hc
    unfold applyStrPeak
    rw [if_neg hc]
  · intro ps1 pos ps2 hsplit hc
    unfold strChannel
    rw [hsplit, applyPeaks_append]
    have hskip : (fun k q d => applyStrPeak g n (extra k) q d)
        (0 + ps1.length) pos
        (applyPeaks (fun k q d => applyStrPeak g n (extra k) q d) 0 ps1
          (baseTrace n b))
        = applyPeaks (fun k q d => applyStrPeak g n (extra k) q d) 0 ps1
            (baseTrace n b) := by
      show applyStrPeak g n (extra (0 + ps1.length)) pos _ = _
      unfold applyStrPeak
      rw [if_neg hc]
    show applyPeaks (fun k q d => applyStrPeak g n (extra k) q d)
        (0 + ps1.length + 1) ps2
        ((fun k q d => applyStrPeak g n (extra k) q d) (0 + ps1.length) pos
          (applyPeaks (fun k q d => applyStrPeak g n (extra k) q d) 0 ps1
            (baseTrace n b))) = _
    rw [hskip, Nat.zero_add]
  · intro e pos d hc
    unfold applyLadderPeak
    rw [if_neg (by omega)]
  · intro e pos d hc
    unfold applyLadderPeak
    rw [if_pos hc]

/-- C4 (counterexample): with 351 samples, the ladder position 350 has its
window [335, 365) partly outside [0, 351), yet it is not skipped: the
window is clamped and the peak partially applied, raising sample 350 from
its baseline value 0 to 300. -/
theorem c4_counterexample :
    ¬((350 : ℤ) + 15 ≤ 351)
    ∧ (ladderChannel gaussModel 351 (fun _ => 0) (fun _ => 0)).getD 350 0 = 300
    ∧ (baseTrace 351 (fun _ => 0)).getD 350 0 = 0 := by
  refine ⟨by decide, ?_, ?_⟩
  · unfold ladderChannel ladderPositions
    simp only [applyPeaks, applyLadderPeak]
    norm_num
    rw [← List.getD_eq_getElem?_getD,
      overlayMax_getD _ _ _ _ 350 (by rw [baseTrace_length]; norm_num),
      if_pos (by constructor <;> decide)]
    rw [baseTrace_getD 351 _ 350 (by norm_num)]
    decide
  · rw [baseTrace_getD 351 _ 350 (by norm_num)]
    decide

/-! ### The explicit directory table -/

theorem synthChannels_explicit (g : ℤ → ℤ → ℤ → ℤ → ℤ) (n : ℕ)
    (env : RandEnv) :
    synthChannels g n env
      = [synthChannel g n env 0, synthChannel g n env 1,
         synthChannel g n env 2, synthChannel g n env 3,
         synthChannel g n env 4] := rfl

/-- The seventeen directory entries of a build, as a function of the byte
length L of the sample identifier: each offset is 1128 plus the total length
of the payloads written before it. -/
def dirTable (L : ℕ) : List DirEntry :=
  [⟨tagName "SMPL", 19, 1, L, L, 1128⟩,
   ⟨tagName "MCHN", 19, 1, 8, 8, 1128 + L⟩,
   ⟨tagName "MODL", 19, 1, 4, 4, 1136 + L⟩,
   ⟨tagName "RUND", 2, 4, 1, 4, 1140 + L⟩,
   ⟨tagName "RUNT", 3, 4, 1, 4, 1144 + L⟩,
   ⟨tagName "SCAN", 4, 4, 1, 4, 1148 + L⟩,
   ⟨tagName "LANE", 5, 2, 1, 2, 1152 + L⟩,
   ⟨tagName "DyeN", 19, 1, 3, 3, 1154 + L⟩,
   ⟨tagName "DyeN", 19, 1, 3, 3, 1157 + L⟩,
   ⟨tagName "DyeN", 19, 1, 3, 3, 1160 + L⟩,
   ⟨tagName "DyeN", 19, 1, 3, 3, 1163 + L⟩,
   ⟨tagName "DyeN", 19, 1, 3, 3, 1166 + L⟩,
   ⟨tagName "DATA", 4, 2, 8000, 16000, 1169 + L⟩,
   ⟨tagName "DATA", 4, 2, 8000, 16000, 17169 + L⟩,
   ⟨tagName "DATA", 4, 2, 8000, 16000, 33169 + L⟩,
   ⟨tagName "DATA", 4, 2, 8000, 16000, 49169 + L⟩,
   ⟨tagName "DATA", 4, 2, 8000, 16000, 65169 + L⟩]

theorem abifDirectory_create (g : ℤ → ℤ → ℤ → ℤ → ℤ) (env : RandEnv)
    (now : DateTime) (s : String) :
    abifDirectory s now (synthChannels g 8000 env)
      = dirTable (asciiBytes s).length := by
  rw [abifDirectory, synthChannels_explicit]
  simp only [tagSpecs, dyes, List.map_cons, List.map_nil, List.cons_append,
    List.nil_append, layout, List.length_append, be16, be32,
    List.length_cons, List.length_nil, i16ArrayBytes_length,
    synthChannel_length, dirTable,
    show (asciiBytes "ABI_3130").length = 8 from rfl,
    show (asciiBytes "3130").length = 4 from rfl,
    show (asciiBytes "FAM").length = 3 from rfl,
    show (asciiBytes "VIC").length = 3 from rfl,
    show (asciiBytes "NED").length = 3 from rfl,
    show (asciiBytes "PET").length = 3 from rfl,
    show (asciiBytes "LIZ").length = 3 from rfl]
  simp only [List.cons.injEq, DirEntry.mk.injEq, and_true, true_and,
    eq_self_iff_true]
  omega

/-- C3 (violated by the code): two emitted directory entries share type code
4 but declare different element byte widths: the SCAN tag (commented "Long"
in the source, width 4) and the DATA trace tags (width 2).  The emitted
type-code to byte-width mapping is not single-valued. -/
theorem c3_type_width_clash :
    ∃ e1 ∈ abifDirectory "SAMPLE001" now0 (synthChannels gaussModel 8000 zeroEnv),
      ∃ e2 ∈ abifDirectory "SAMPLE001" now0 (synthChannels gaussModel 8000 zeroEnv),
        e1.etype = e2.etype ∧ e1.esize ≠ e2.esize := by
  rw [abifDirectory_create]
  decide

/-! ### File length and claim C5 -/

theorem create_length (g : ℤ → ℤ → ℤ → ℤ → ℤ) (env : RandEnv)
    (now : DateTime) (s : String) :
    (create_fsa_file g env now s).length = 81169 + (asciiBytes s).length := by
  have hnames := abifDirectory_names s now (synthChannels g 8000 env)
  have hdb : (dirBytes (abifDirectory s now (synthChannels g 8000 env))).length
      = 408 := by
    rw [dirBytes_length _ hnames, abifDirectory_length, synthChannels_length]
  rw [create_fsa_decomp]
  simp only [List.length_append, headerPack_length, List.length_replicate,
    hdb, payloadBytes_length]
  rw [synthChannels_explicit]
  simp only [List.map_cons, List.map_nil, List.sum_cons, List.sum_nil,
    synthChannel_length]
  omega

/-- The five trace payloads, contiguous at the end of the heap. -/
def traceBytes (cd : List (List ℤ)) : List ℕ := (cd.map i16ArrayBytes).flatten

theorem traceBytes_length (g : ℤ → ℤ → ℤ → ℤ → ℤ) (env : RandEnv) :
    (traceBytes (synthChannels g 8000 env)).length = 80000 := by
  rw [traceBytes, synthChannels_explicit]
  simp [i16ArrayBytes_length, synthChannel_length]

theorem dirTable_names (L : ℕ) : ∀ e ∈ dirTable L, e.name.length = 4 := by
  intro e he
  fin_cases he <;> simp [tagName_length]

/-- C5 (amended): two builds at the same clock reading with sample
identifiers of equal byte length and the same channel count and sample
count produce files of identical total length with identical directories
(the same entries in the same order); each file is a common prefix (header
and directory region), then the identifier payload, then a common middle
(the remaining metadata and dye payloads), then the trace payloads — so
only the identifier payload bytes and the trace bytes can differ. -/
theorem c5_structure (g1 g2 : ℤ → ℤ → ℤ → ℤ → ℤ) (env1 env2 : RandEnv)
    (now : DateTime) (s1 s2 : String)
    (hlen : (asciiBytes s1).length = (asciiBytes s2).length) :
    (create_fsa_file g1 env1 now s1).length
        = (create_fsa_file g2 env2 now s2).length
    ∧ abifDirectory s1 now (synthChannels g1 8000 env1)
        = abifDirectory s2 now (synthChannels g2 8000 env2)
    ∧ ∃ A B T1 T2 : List ℕ, A.length = 1128 ∧ B.length = 41
        ∧ T1.length = 80000 ∧ T2.length = 80000
        ∧ create_fsa_file g1 env1 now s1 = A ++ (asciiBytes s1 ++ (B ++ T1))
        ∧ create_fsa_file g2 env2 now s2 = A ++ (asciiBytes s2 ++ (B ++ T2)) := by
  refine ⟨by rw [create_length, create_length, hlen],
    by rw [abifDirectory_create, abifDirectory_create, hlen], ?_⟩
  have hA : ∀ s : String,
      (headerPack 128 17 ++ (List.replicate 104 0
        ++ (dirBytes (dirTable (asciiBytes s).length)
          ++ List.replicate 592 0))).length = 1128 := by
    intro s
    have hdb : (dirBytes (dirTable (asciiBytes s).length)).length = 408 := by
      rw [dirBytes_length _ (dirTable_names _)]
      rfl
    simp only [List.length_append, headerPack_length, List.length_replicate,
      hdb]
  have hfile : ∀ (g : ℤ → ℤ → ℤ → ℤ → ℤ) (env : RandEnv) (s : String),
      create_fsa_file g env now s
        = (headerPack 128 17 ++ (List.replicate 104 0
            ++ (dirBytes (dirTable (asciiBytes s).length)
              ++ List.replicate 592 0)))
          ++ (asciiBytes s ++ (midBytes now
              ++ traceBytes (synthChannels g 8000 env))) := by
    intro g env s
    rw [create_fsa_decomp, payloadBytes_split, abifDirectory_create, traceBytes]
    simp only [List.append_assoc]
  refine ⟨headerPack 128 17 ++ (List.replicate 104 0
      ++ (dirBytes (dirTable (asciiBytes s1).length) ++ List.replicate 592 0)),
    midBytes now, traceBytes (synthChannels g1 8000 env1),
    traceBytes (synthChannels g2 8000 env2),
    hA s1, midBytes_length now, traceBytes_length g1 env1,
    traceBytes_length g2 env2, hfile g1 env1 s1, ?_⟩
  rw [hfile g2 env2 s2, hlen]

/-- Witness for C5 (amended) at two equal-length identifiers. -/
theorem c5_structure_witness :
    (asciiBytes "SAMPLE001").length = (asciiBytes "SAMPLE002").length
    ∧ ((create_fsa_file gaussModel zeroEnv now0 "SAMPLE001").length
        = (create_fsa_file gaussModel zeroEnv now0 "SAMPLE002").length
      ∧ abifDirectory "SAMPLE001" now0 (synthChannels gaussModel 8000 zeroEnv)
          = abifDirectory "SAMPLE002" now0 (synthChannels gaussModel 8000 zeroEnv)
      ∧ ∃ A B T1 T2 : List ℕ, A.length = 1128 ∧ B.length = 41
          ∧ T1.length = 80000 ∧ T2.length = 80000
          ∧ create_fsa_file gaussModel zeroEnv now0 "SAMPLE001"
              = A ++ (asciiBytes "SAMPLE001" ++ (B ++ T1))
          ∧ create_fsa_file gaussModel zeroEnv now0 "SAMPLE002"
              = A ++ (asciiBytes "SAMPLE002" ++ (B ++ T2))) :=
  ⟨by decide, c5_structure gaussModel gaussModel zeroEnv zeroEnv now0
    "SAMPLE001" "SAMPLE002" (by decide)⟩

/-- C5 (counterexample): sample identifiers of different byte lengths give
files of different total lengths ("SAMPLE001" has 9 payload bytes, "AB"
has 2), so the claim fails for arbitrary pairs of identifiers. -/
theorem c5_counterexample :
    (create_fsa_file gaussModel zeroEnv now0 "SAMPLE001").length
      ≠ (create_fsa_file gaussModel zeroEnv now0 "AB").length := by
  rw [create_length, create_length]
  decide

/-! ### Claim C6: directory ranges and round-trip -/

theorem payloadBytes_cons (t : TagSpec) (ts : List TagSpec) :
    payloadBytes (t :: ts) = t.payload ++ payloadBytes ts := by
  simp [payloadBytes]

theorem layout_mem_spec :
    ∀ (ts : List TagSpec) (off : ℕ) (ep : DirEntry × List ℕ),
      ep ∈ layout off ts →
      ∃ t ∈ ts, ep.2 = t.payload ∧ ep.1.size = t.size := by
  intro ts
  induction ts with
  | nil => intro off ep h; simp [layout] at h
  | cons t ts ih =>
      intro off ep h
      rcases List.mem_cons.mp h with rfl | h
      · exact ⟨t, List.mem_cons_self _ _, rfl, rfl⟩
      · obtain ⟨u, hu, hprops⟩ := ih (off + t.payload.length) ep h
        exact ⟨u, List.mem_cons_of_mem _ hu, hprops⟩

theorem layout_slice :
    ∀ (ts : List TagSpec) (pre : List ℕ) (ep : DirEntry × List ℕ),
      ep ∈ layout pre.length ts →
      ep.1.offset + ep.2.length ≤ (pre ++ payloadBytes ts).length
      ∧ ((pre ++ payloadBytes ts).drop ep.1.offset).take ep.2.length = ep.2 := by
  intro ts
  induction ts with
  | nil => intro pre ep h; simp [layout] at h
  | cons t ts ih =>
      intro pre ep h
      rcases List.mem_cons.mp h with rfl | h
      · constructor
        · show pre.length + t.payload.length
              ≤ (pre ++ payloadBytes (t :: ts)).length
          simp only [payloadBytes_cons, List.length_append]
          omega
        · show (((pre ++ payloadBytes (t :: ts)).drop pre.length).take
              t.payload.length) = t.payload
          rw [payloadBytes_cons, List.drop_left' rfl, List.take_left' rfl]
      · have hep2 : ep ∈ layout (pre ++ t.payload).length ts := by
          rw [List.length_append]; exact h
        have := ih (pre ++ t.payload) ep hep2
        rw [payloadBytes_cons, ← List.append_assoc]
        exact this

theorem layout_offset_lb :
    ∀ (ts : List TagSpec) (off : ℕ) (ep : DirEntry × List ℕ),
      ep ∈ layout off ts → off ≤ ep.1.offset := by
  intro ts
  induction ts with
  | nil => intro off ep h; simp [layout] at h
  | cons t ts ih =>
      intro off ep h
      rcases List.mem_cons.mp h with rfl | h
      · exact le_refl _
      · have := ih (off + t.payload.length) ep h
        omega

theorem layout_pairwise :
    ∀ (ts : List TagSpec), (∀ t ∈ ts, t.payload.length = t.size) →
      ∀ off, ((layout off ts).map Prod.fst).Pairwise
        (fun a b => a.offset + a.size ≤ b.offset) := by
  intro ts
  induction ts with
  | nil => intro _ off; simp [layout]
  | cons t ts ih =>
      intro hsz off
      simp only [layout, List.map_cons]
      rw [List.pairwise_cons]
      constructor
      · intro e he
        obtain ⟨ep, hep, rfl⟩ := List.mem_map.mp he
        have hlb := layout_offset_lb ts (off + t.payload.length) ep hep
        have ht := hsz t (List.mem_cons_self _ _)
        show off + t.size ≤ ep.1.offset
        omega
      · exact ih (fun u hu => hsz u (List.mem_cons_of_mem _ hu))
          (off + t.payload.length)

/-- C6: for every directory entry of a generated container, the declared
byte range [offset, offset + size) lies entirely within the file, the bytes
of that range are exactly the payload written for the tag (so re-parsing
the file via the directory reconstructs every payload byte-identically),
and the ranges of distinct entries do not overlap. -/
theorem c6_directory_ranges (g : ℤ → ℤ → ℤ → ℤ → ℤ) (env : RandEnv)
    (now : DateTime) (s : String) :
    (∀ ep ∈ layout 1128 (tagSpecs s now (synthChannels g 8000 env)),
        ep.1.size = ep.2.length
        ∧ ep.1.offset + ep.1.size ≤ (create_fsa_file g env now s).length
        ∧ ((create_fsa_file g env now s).drop ep.1.offset).take ep.1.size
            = ep.2)
    ∧ (abifDirectory s now (synthChannels g 8000 env)).Pairwise
        (fun a b => a.offset + a.size ≤ b.offset
          ∨ b.offset + b.size ≤ a.offset) := by
  have hsz := tagSpecs_payload_size s now (synthChannels g 8000 env)
  have hdb : (dirBytes (abifDirectory s now (synthChannels g 8000 env))).length
      = 408 := by
    rw [dirBytes_length _ (abifDirectory_names s now _), abifDirectory_length,
      synthChannels_length]
  have hprelen : (headerPack 128 17 ++ (List.replicate 104 0
      ++ (dirBytes (abifDirectory s now (synthChannels g 8000 env))
        ++ List.replicate 592 0))).length = 1128 := by
    simp only [List.length_append, headerPack_length, List.length_replicate,
      hdb]
  have hfile : create_fsa_file g env now s
      = (headerPack 128 17 ++ (List.replicate 104 0
          ++ (dirBytes (abifDirectory s now (synthChannels g 8000 env))
            ++ List.replicate 592 0)))
        ++ payloadBytes (tagSpecs s now (synthChannels g 8000 env)) := by
    rw [create_fsa_decomp]
    simp only [List.append_assoc]
  constructor
  · intro ep hep
    have hep2 : ep ∈ layout (headerPack 128 17 ++ (List.replicate 104 0
        ++ (dirBytes (abifDirectory s now (synthChannels g 8000 env))
          ++ List.replicate 592 0))).length
        (tagSpecs s now (synthChannels g 8000 env)) := by
      rw [hprelen]; exact hep
    have hslice := layout_slice _ _ ep hep2
    obtain ⟨t, ht, hpay, hsizefield⟩ := layout_mem_spec _ _ ep hep
    have hlen2 : ep.1.size = ep.2.length := by
      rw [hsizefield, hpay, (hsz t ht).1]
    refine ⟨hlen2, ?_, ?_⟩
    · rw [hfile, hlen2]
      exact hslice.1
    · rw [hfile, hlen2]
      exact hslice.2
  · have := layout_pairwise (tagSpecs s now (synthChannels g 8000 env))
      (fun t ht => (hsz t ht).1) 1128
    exact this.imp fun h => Or.inl h

end FSA
